import Mathlib

/-!
Verification development for the gass data-access layer.

Shallow embedding of the core of the repository:
- the filter evaluator `SheetService.evaluateFilter` (src/services/SheetService.ts, lines 271-322),
- the sorted-range optimizer `getSortedRangeFilteredRows` / `findRangeBound`
  (src/services/SheetService.ts, lines 482-651),
- the contiguous-run grouping of `getFilteredRows` phase 3 (lines 446-479),
- the record lifecycle `Entry.save` / `Entry.batchSave` / `Entry.batchInsert` / `Entry.fromRow` /
  `Entry.toRow` (src/base/Entry.ts, second document, lines 689-1150),
- the relationship resolver `Entry.getLinkedObjects` (src/base/Entry.ts, lines 808-896) and the
  link facades of src/base/Link.ts.

Host-language (JavaScript) scalar semantics is modelled explicitly where the source relies on it:
strict equality, truthiness, the abstract relational comparison, and ToNumber / ToString on the
scalar cell universe `string | number | boolean | Date | null`.
-/

namespace Gass

/-- A scalar cell value: `export type SheetValue = string | number | boolean | Date | null`
(src/services/SheetService.ts line 1).  JS numbers are modelled as rationals (no NaN can be stored
in a cell); a `Date` is identified by its millisecond timestamp. -/
inductive SheetValue where
  | str (s : String)
  | num (q : ℚ)
  | bool (b : Bool)
  | date (t : ℤ)
  | null
deriving DecidableEq

/-- JS strict equality `===` on cell values.  Values of different types are never strictly equal;
two `Date`s compare by reference, and a cell `Date` is always a fresh object
(`convertFromSheet` runs `new Date(value.getTime())`), never the very object held by a predicate,
so `Date === Date` is `false` here. -/
def jsStrictEq : SheetValue → SheetValue → Bool
  | .str a, .str b => a = b
  | .num a, .num b => a = b
  | .bool a, .bool b => a = b
  | .null, .null => true
  | _, _ => false

/-- JS truthiness of a cell value (`null`, `false`, `0` and `""` are falsy; any `Date` is truthy). -/
def jsTruthy : SheetValue → Bool
  | .str s => s ≠ ""
  | .num q => q ≠ 0
  | .bool b => b
  | .date _ => true
  | .null => false

/-- Digit list to natural number, most significant first. -/
def digitsVal (l : List Char) : ℕ :=
  l.foldl (fun a c => a * 10 + (c.toNat - 48)) 0

/-- JS `ToNumber` on a string, for plain decimal numerals: optional sign, digits, optional
fractional part; the empty / all-whitespace string converts to `0`; anything else is NaN (`none`).
(Exponent and hex forms of JS numerals do not occur in this development.) -/
def strToNum (s : String) : Option ℚ :=
  let t := s.trim
  if t = "" then some 0
  else
    let (sgn, rest) :=
      if t.startsWith "-" then ((-1 : ℚ), t.drop 1)
      else if t.startsWith "+" then ((1 : ℚ), t.drop 1)
      else ((1 : ℚ), t)
    match rest.splitOn "." with
    | [ip] =>
      if ip ≠ "" ∧ ip.data.all Char.isDigit then some (sgn * digitsVal ip.data) else none
    | [ip, fp] =>
      if (ip ≠ "" ∨ fp ≠ "") ∧ ip.data.all Char.isDigit ∧ fp.data.all Char.isDigit then
        some (sgn * (digitsVal ip.data + (digitsVal fp.data : ℚ) / (10 : ℚ) ^ fp.length))
      else none
    | _ => none

/-- JS `ToNumber` of a cell value; `none` is NaN.  A `Date` converts (via `ToPrimitive`) to its
timestamp. -/
def jsToNumber : SheetValue → Option ℚ
  | .str s => strToNum s
  | .num q => some q
  | .bool b => some (if b then 1 else 0)
  | .date t => some (t : ℚ)
  | .null => some 0

/-- Code-unit lexicographic order on character lists (JS string `<`). -/
def charListLt : List Char → List Char → Bool
  | [], [] => false
  | [], _ :: _ => true
  | _ :: _, [] => false
  | a :: as, b :: bs =>
    if a.toNat < b.toNat then true
    else if b.toNat < a.toNat then false
    else charListLt as bs

/-- JS string `<` (lexicographic by code unit; identical to code-point order on the strings
appearing here). -/
def strCodeLt (a b : String) : Bool := charListLt a.data b.data

/-- The JS abstract relational comparison `x < y` on cell values: if both operands are strings,
lexicographic; otherwise both convert with `ToNumber` and NaN makes the comparison false.
A `Date` primitivizes to its timestamp under the number hint. -/
def jsLt (x y : SheetValue) : Bool :=
  match x, y with
  | .str a, .str b => strCodeLt a b
  | _, _ =>
    match jsToNumber x, jsToNumber y with
    | some a, some b => a < b
    | _, _ => false

/-- Whether the abstract relational comparison of `x` and `y` is defined (does not hit NaN). -/
def jsCmpDefined (x y : SheetValue) : Bool :=
  match x, y with
  | .str _, .str _ => true
  | _, _ => (jsToNumber x).isSome && (jsToNumber y).isSome

/-- JS `x <= y`, which evaluates `y < x` and negates it unless that comparison is undefined. -/
def jsLe (x y : SheetValue) : Bool := jsCmpDefined y x && !(jsLt y x)

/-- JS `x > y`, which is `y < x`. -/
def jsGt (x y : SheetValue) : Bool := jsLt y x

/-- JS `x >= y`, which evaluates `x < y` and negates it unless that comparison is undefined. -/
def jsGe (x y : SheetValue) : Bool := jsCmpDefined x y && !(jsLt x y)

/-- Decimal string of an integer (JS `String(n)` for integral numbers). -/
def intToStr (n : ℤ) : String := toString n

/-- JS `String(q)` for a number.  Integral values print exactly as in JS; the non-integral
fallback prints `num/den` and is never reached in this development (only integral numbers are
stringified by the theorems below). -/
def numToStr (q : ℚ) : String :=
  if q.den = 1 then intToStr q.num else intToStr q.num ++ "/" ++ toString q.den

/-- JS `String(v)` of a cell value.  `String(date)` is a long host-formatted string, modelled
opaquely by its timestamp; no theorem below stringifies a `Date`. -/
def jsToString : SheetValue → String
  | .str s => s
  | .num q => numToStr q
  | .bool b => if b then "true" else "false"
  | .date t => "Date(" ++ intToStr t ++ ")"
  | .null => "null"

/-- Substring test on character lists (JS `String.prototype.includes`). -/
def charListHas (hay needle : List Char) : Bool :=
  match hay with
  | [] => needle = []
  | _ :: rest => needle.isPrefixOf hay || charListHas rest needle

/-- Body of `$contains`: `String(value).toLowerCase().includes(String(compareValue).toLowerCase())`. -/
def jsContains (value compareValue : SheetValue) : Bool :=
  charListHas (jsToString value).toLower.data (jsToString compareValue).toLower.data

/-- An operator object, mirroring the TS type
`{ [key in FilterOperator]?: key extends "$between" ? [SheetValue, SheetValue] : SheetValue }`
plus the keys that fall outside the declared operator set (`unknown`); for those the source's
`default` branch ignores the compare value entirely, so only the keys are kept. -/
structure FilterObj where
  existsOp : Option SheetValue := none
  ltOp : Option SheetValue := none
  lteOp : Option SheetValue := none
  gtOp : Option SheetValue := none
  gteOp : Option SheetValue := none
  eqOp : Option SheetValue := none
  betweenOp : Option (SheetValue × SheetValue) := none
  containsOp : Option SheetValue := none
  unknown : List String := []

/-- A filter predicate: either a bare scalar or an operator object
(`type FilterValue = {...} | SheetValue`). -/
inductive FilterValue where
  | bare (v : SheetValue)
  | obj (o : FilterObj)

/-- Evaluate an optional operator entry; an absent entry contributes `true` to the conjunction
(`Object.entries` simply does not yield it). -/
def optAll (o : Option α) (p : α → Bool) : Bool :=
  match o with
  | none => true
  | some a => p a

/-- Operator-object path of `SheetService.evaluateFilter` (lines 276-321): `$exists` is handled
first and alone; otherwise the empty string is normalized to null, null never matches, and the
remaining entries are conjoined with `Array.prototype.every`.  The `default` branch for an
unrecognized key is `value === filterValue`: a scalar or `Date` cell is never strictly equal to
the predicate object, so each unknown entry contributes `false`. -/
def evaluateFilterObj (value : SheetValue) (o : FilterObj) : Bool :=
  match o.existsOp with
  | some b =>
    let shouldExist := jsTruthy b
    let ex := value ≠ SheetValue.null && value ≠ SheetValue.str ""
    if shouldExist then ex else !ex
  | none =>
    let value := if value = SheetValue.str "" then SheetValue.null else value
    if value = SheetValue.null then false
    else
      optAll o.ltOp (fun c => jsLt value c) &&
      optAll o.lteOp (fun c => jsLe value c) &&
      optAll o.gtOp (fun c => jsGt value c) &&
      optAll o.gteOp (fun c => jsGe value c) &&
      optAll o.eqOp (fun c => jsStrictEq value c) &&
      optAll o.betweenOp (fun p => jsGe value p.1 && jsLe value p.2) &&
      optAll o.containsOp (fun c => jsContains value c) &&
      o.unknown.all (fun _ => false)

/-- Embedding of `SheetService.evaluateFilter` (lines 271-322).  The guard
`filterValue === null || typeof filterValue !== "object"` sends a bare scalar to strict equality;
a bare `Date` is an object in JS, so it takes the operator-object path, where
`Object.entries` of a `Date` yields nothing. -/
def evaluateFilter (value : SheetValue) (fv : FilterValue) : Bool :=
  match fv with
  | .bare (.date _) => evaluateFilterObj value {}
  | .bare v => jsStrictEq value v
  | .obj o => evaluateFilterObj value o

/-- The predicate `{$gt: 0}`. -/
def gtZeroObj : FilterObj := { gtOp := some (SheetValue.num 0) }

/-- C5: `evaluateFilter(v, {$exists: b})` is existence (value not null and not the empty string)
for `b = true` and its negation for `b = false`, decided before empty-string normalization; and
with `$exists` absent, a null or empty-string value never matches any operator object — in
particular `evaluateFilter("", {$gt: 0})` is `false`. -/
theorem C5_exists_and_null_semantics (v : SheetValue) (b : Bool) (o : FilterObj)
    (ho : o.existsOp = none) :
    (evaluateFilter v (.obj { existsOp := some (SheetValue.bool b) }) =
      (if b then (v ≠ SheetValue.null && v ≠ SheetValue.str "")
       else !(v ≠ SheetValue.null && v ≠ SheetValue.str ""))) ∧
    evaluateFilter SheetValue.null (.obj o) = false ∧
    evaluateFilter (SheetValue.str "") (.obj o) = false ∧
    evaluateFilter (SheetValue.str "") (.obj gtZeroObj) = false := by
  refine ⟨?_, ?_, ?_, rfl⟩
  · cases b <;> simp [evaluateFilter, evaluateFilterObj, jsTruthy]
  · simp [evaluateFilter, evaluateFilterObj, ho]
  · simp [evaluateFilter, evaluateFilterObj, ho]

/-- Witness for C5 at `v = 7`, `b = true`, `o = {$gt: 0}`. -/
theorem C5_exists_and_null_semantics_witness :
    (evaluateFilter (SheetValue.num 7) (.obj { existsOp := some (SheetValue.bool true) }) =
      (if true then (SheetValue.num 7 ≠ SheetValue.null && SheetValue.num 7 ≠ SheetValue.str "")
       else !(SheetValue.num 7 ≠ SheetValue.null && SheetValue.num 7 ≠ SheetValue.str ""))) ∧
    evaluateFilter SheetValue.null (.obj gtZeroObj) = false ∧
    evaluateFilter (SheetValue.str "") (.obj gtZeroObj) = false ∧
    evaluateFilter (SheetValue.str "") (.obj gtZeroObj) = false :=
  C5_exists_and_null_semantics (SheetValue.num 7) true gtZeroObj rfl

/-- C6 counterexample: on value `5`, the predicate `{$exists: true, $gt: 10}` matches even though
the `$gt: 10` entry alone does not (so the result is not the conjunction of the individual
operator results), and `{$exists: true, $regex: ...}` matches despite its unrecognized key (so an
unrecognized key does not force a non-match). -/
theorem C6_counterexample :
    evaluateFilter (SheetValue.num 5)
      (.obj { existsOp := some (SheetValue.bool true), gtOp := some (SheetValue.num 10) }) = true ∧
    evaluateFilter (SheetValue.num 5) (.obj { gtOp := some (SheetValue.num 10) }) = false ∧
    evaluateFilter (SheetValue.num 5)
      (.obj { existsOp := some (SheetValue.bool true), unknown := ["$regex"] }) = true := by
  refine ⟨rfl, ?_, rfl⟩
  simp [evaluateFilter, evaluateFilterObj, optAll, jsGt, jsLt, jsToNumber]
  norm_num

/-- C6 (amended): when the predicate object does not contain `$exists`, `evaluateFilter` on a
non-null, non-empty value is the conjunction of the evaluations of each entry taken alone, and an
unrecognized operator key forces a non-match; when `$exists` is present its result alone is
returned and every other entry is ignored. -/
theorem C6_conjunction_without_exists (v : SheetValue) (o : FilterObj)
    (hn : v ≠ SheetValue.null) (he : v ≠ SheetValue.str "") (hx : o.existsOp = none) :
    (evaluateFilter v (.obj o) =
      (optAll o.ltOp (fun c => evaluateFilter v (.obj { ltOp := some c })) &&
       optAll o.lteOp (fun c => evaluateFilter v (.obj { lteOp := some c })) &&
       optAll o.gtOp (fun c => evaluateFilter v (.obj { gtOp := some c })) &&
       optAll o.gteOp (fun c => evaluateFilter v (.obj { gteOp := some c })) &&
       optAll o.eqOp (fun c => evaluateFilter v (.obj { eqOp := some c })) &&
       optAll o.betweenOp (fun p => evaluateFilter v (.obj { betweenOp := some p })) &&
       optAll o.containsOp (fun c => evaluateFilter v (.obj { containsOp := some c })) &&
       o.unknown.all (fun k => evaluateFilter v (.obj { unknown := [k] })))) ∧
    (o.unknown ≠ [] → evaluateFilter v (.obj o) = false) := by
  have hsingle : ∀ o' : FilterObj, o'.existsOp = none →
      evaluateFilterObj v o' =
        (optAll o'.ltOp (fun c => jsLt v c) &&
         optAll o'.lteOp (fun c => jsLe v c) &&
         optAll o'.gtOp (fun c => jsGt v c) &&
         optAll o'.gteOp (fun c => jsGe v c) &&
         optAll o'.eqOp (fun c => jsStrictEq v c) &&
         optAll o'.betweenOp (fun p => jsGe v p.1 && jsLe v p.2) &&
         optAll o'.containsOp (fun c => jsContains v c) &&
         o'.unknown.all (fun _ => false)) := by
    intro o' hx'
    simp only [evaluateFilterObj, hx', if_neg he, if_neg hn]
  constructor
  · simp only [evaluateFilter]
    rw [hsingle o hx]
    simp only [hsingle, optAll, List.all_nil, List.all_cons, Bool.and_assoc, Bool.and_true,
      Bool.true_and, Bool.and_false, Bool.false_and]
  · intro hu
    simp only [evaluateFilter]
    rw [hsingle o hx]
    rcases h : o.unknown with _ | ⟨k, ks⟩
    · exact absurd h hu
    · simp [h]

/-- Witness for C6 (amended) at `v = 5`, `o = {$gte: 3, $lte: 9}`. -/
theorem C6_conjunction_without_exists_witness :
    (evaluateFilter (SheetValue.num 5)
        (.obj { gteOp := some (SheetValue.num 3), lteOp := some (SheetValue.num 9) }) =
      (optAll (none : Option SheetValue)
          (fun c => evaluateFilter (SheetValue.num 5) (.obj { ltOp := some c })) &&
       optAll (some (SheetValue.num 9))
          (fun c => evaluateFilter (SheetValue.num 5) (.obj { lteOp := some c })) &&
       optAll (none : Option SheetValue)
          (fun c => evaluateFilter (SheetValue.num 5) (.obj { gtOp := some c })) &&
       optAll (some (SheetValue.num 3))
          (fun c => evaluateFilter (SheetValue.num 5) (.obj { gteOp := some c })) &&
       optAll (none : Option SheetValue)
          (fun c => evaluateFilter (SheetValue.num 5) (.obj { eqOp := some c })) &&
       optAll (none : Option (SheetValue × SheetValue))
          (fun p => evaluateFilter (SheetValue.num 5) (.obj { betweenOp := some p })) &&
       optAll (none : Option SheetValue)
          (fun c => evaluateFilter (SheetValue.num 5) (.obj { containsOp := some c })) &&
       ([] : List String).all
          (fun k => evaluateFilter (SheetValue.num 5) (.obj { unknown := [k] })))) ∧
    (([] : List String) ≠ [] →
      evaluateFilter (SheetValue.num 5)
        (.obj { gteOp := some (SheetValue.num 3), lteOp := some (SheetValue.num 9) }) = false) :=
  C6_conjunction_without_exists (SheetValue.num 5)
    { gteOp := some (SheetValue.num 3), lteOp := some (SheetValue.num 9) }
    (by simp) (by simp) rfl

/-- C7 counterexample: a bare `Date` predicate is an object in JS, so it takes the operator-object
path and matches the number `5` even though `5` is not strictly equal to that `Date`. -/
theorem C7_counterexample :
    evaluateFilter (SheetValue.num 5) (.bare (SheetValue.date 0)) = true ∧
    jsStrictEq (SheetValue.num 5) (SheetValue.date 0) = false :=
  ⟨rfl, rfl⟩

/-- C7 (amended): for a bare predicate drawn from the non-`Date` scalars (string, number,
boolean, null), `evaluateFilter` is exactly JS strict equality of value and predicate; a bare
`Date` (timestamp) predicate instead matches every value that is neither null nor the empty
string. -/
theorem C7_bare_scalar_equality (v p : SheetValue) (hp : ∀ t, p ≠ SheetValue.date t) :
    evaluateFilter v (.bare p) = jsStrictEq v p ∧
    (∀ t, evaluateFilter v (.bare (SheetValue.date t)) =
      (v ≠ SheetValue.null && v ≠ SheetValue.str "")) := by
  constructor
  · cases p with
    | str s => rfl
    | num q => rfl
    | bool b => rfl
    | date t => exact absurd rfl (hp t)
    | null => rfl
  · intro t
    by_cases hn : v = SheetValue.null
    · subst hn; rfl
    · by_cases he : v = SheetValue.str ""
      · subst he; rfl
      · simp [evaluateFilter, evaluateFilterObj, optAll, hn, he]

/-- Witness for C7 (amended) at `v = "Alice"`, `p = "Alice"`. -/
theorem C7_bare_scalar_equality_witness :
    evaluateFilter (SheetValue.str "Alice") (.bare (SheetValue.str "Alice")) =
      jsStrictEq (SheetValue.str "Alice") (SheetValue.str "Alice") ∧
    (∀ t, evaluateFilter (SheetValue.str "Alice") (.bare (SheetValue.date t)) =
      (SheetValue.str "Alice" ≠ SheetValue.null && SheetValue.str "Alice" ≠ SheetValue.str "")) :=
  C7_bare_scalar_equality (SheetValue.str "Alice") (SheetValue.str "Alice") (by intro t; simp)

/-! ### Range Optimizer (src/services/SheetService.ts lines 482-651) -/

/-- Embedding of `encodeStringToUint8`: uppercase the string and take the code of each character
(`charCodeAt`; identical to the code point on the strings appearing here). -/
def encodeStringToUint8 (s : String) : List ℕ :=
  s.toUpper.data.map Char.toNat

/-- A prepared sort-column cell: either a (possibly normalized) scalar, or — in string-comparison
mode — the encoded byte sequence. -/
inductive CellVal where
  | sv (v : SheetValue)
  | bytes (bs : List ℕ)
deriving DecidableEq

/-- A search target: the derived `min`/`max` bound.  `negInf`/`posInf` are the JS
`-Infinity`/`Infinity` initial values, `bytes` an encoded string bound. -/
inductive BoundVal where
  | negInf
  | posInf
  | sv (v : SheetValue)
  | bytes (bs : List ℕ)
deriving DecidableEq

/-- Embedding of `compareUint8Arrays(target, value)`: first differing byte decides, then the length
difference. -/
def compareUint8Arrays : List ℕ → List ℕ → ℤ
  | a :: as, b :: bs => if a ≠ b then (a : ℤ) - (b : ℤ) else compareUint8Arrays as bs
  | as, bs => (as.length : ℤ) - (bs.length : ℤ)

/-- Strict equality `target === value` where `target` may be `±Infinity`: an infinity is never
strictly equal to a finite cell value. -/
def bvStrictEq : BoundVal → SheetValue → Bool
  | .sv a, b => jsStrictEq a b
  | _, _ => false

/-- JS `target < value` where `target` may be `±Infinity`: `-Infinity` is below everything whose
`ToNumber` is not NaN, `Infinity` above everything. -/
def bvLt : BoundVal → SheetValue → Bool
  | .negInf, b => (jsToNumber b).isSome
  | .posInf, _ => false
  | .sv a, b => jsLt a b
  | .bytes _, _ => false

/-- Embedding of `compareValues(a, b)` (lines 646-651) with `a` the search target and `b` a cell value. -/
def compareValues (a : BoundVal) (b : SheetValue) : ℤ :=
  if bvStrictEq a b then 0
  else if a = BoundVal.sv SheetValue.null then -1
  else if b = SheetValue.null then 1
  else if bvLt a b then -1 else 1

/-- Comparison of the target against one prepared cell, dispatched on `isStringComparison`
exactly as in `findRangeBound` (lines 608-610).  In string mode every searched target is an
encoded string and every non-null cell is encoded; the remaining combinations (a null cell, or a
non-string bound while the other bound is a string) would make the source throw a `TypeError` /
produce NaN inside `compareUint8Arrays` — no theorem below reaches them, and they return `0`
here. -/
def cellCompare (isStringComparison : Bool) (target : BoundVal) (cell : CellVal) : ℤ :=
  if isStringComparison then
    match target, cell with
    | .bytes tb, .bytes vb => compareUint8Arrays tb vb
    | _, _ => 0
  else
    match cell with
    | .sv v => compareValues target v
    | .bytes _ => 0

/-- The `while (left <= right)` loop of `findRangeBound` (lines 606-624).  `rp1` is `right + 1`
(kept as a natural number); the returned triple is the final `left`, the final `right + 1` and
the `result` candidate (`-1` while no exact match has been seen). -/
def frbLoop (cmpAt : ℕ → ℤ) (findLower : Bool) (left rp1 : ℕ) (result : ℤ) : ℕ × ℕ × ℤ :=
  if h : left < rp1 then
    let mid := (left + (rp1 - 1)) / 2
    let c := cmpAt mid
    if c = 0 then
      if findLower then frbLoop cmpAt findLower left mid (mid : ℤ)
      else frbLoop cmpAt findLower (mid + 1) rp1 (mid : ℤ)
    else if c < 0 then frbLoop cmpAt findLower left mid result
    else frbLoop cmpAt findLower (mid + 1) rp1 result
  else (left, rp1, result)
termination_by rp1 - left
decreasing_by
  all_goals
    have _hdiv := Nat.div_add_mod (left + (rp1 - 1)) 2
    have _hmod : (left + (rp1 - 1)) % 2 < 2 := Nat.mod_lt _ (by omega)
    omega

/-- Embedding of `findRangeBound` (lines 594-636): binary search biased to the first (`findLower`) or last
occurrence of the target; with no exact match, the insertion point (`left` for the lower bound,
`right` for the upper bound) clamped into `[0, n-1]`. -/
def findRangeBound (values : List (CellVal × ℕ)) (target : BoundVal)
    (findLower isStringComparison : Bool) : ℤ :=
  if values.length = 0 then -1
  else
    let cmpAt : ℕ → ℤ := fun i =>
      cellCompare isStringComparison target (((values.get? i).map Prod.fst).getD (CellVal.sv .null))
    let r := frbLoop cmpAt findLower 0 values.length (-1)
    let result := if r.2.2 = -1 then (if findLower then (r.1 : ℤ) else (r.2.1 : ℤ) - 1) else r.2.2
    let result := if result < 0 then 0 else result
    if result ≥ (values.length : ℤ) then (values.length : ℤ) - 1 else result

/-- The `min`/`max` bounds and one-sidedness flags derived from the filter value
(lines 493-533). -/
structure RangeBounds where
  min : BoundVal
  max : BoundVal
  isLowerBoundOnly : Bool
  isUpperBoundOnly : Bool

/-- Bound extraction from the range filter (lines 497-533).  A bare scalar (or null) sets both
bounds; `$eq` and `$between` follow; otherwise the one-sided flags are computed and `$gte`
overrides `$gt`, `$lte` overrides `$lt`.  A bare `Date` is an object in JS, so it reaches the
final branch with no recognized keys and leaves both bounds infinite. -/
def extractBounds (fv : FilterValue) : RangeBounds :=
  let fromObj : FilterObj → RangeBounds := fun o =>
    match o.eqOp with
    | some c => { min := .sv c, max := .sv c, isLowerBoundOnly := false, isUpperBoundOnly := false }
    | none =>
      match o.betweenOp with
      | some p =>
        { min := .sv p.1, max := .sv p.2, isLowerBoundOnly := false, isUpperBoundOnly := false }
      | none =>
        let hasLower := o.gtOp.isSome || o.gteOp.isSome
        let hasUpper := o.ltOp.isSome || o.lteOp.isSome
        let minB := match o.gteOp with
          | some c => BoundVal.sv c
          | none => match o.gtOp with
            | some c => BoundVal.sv c
            | none => BoundVal.negInf
        let maxB := match o.lteOp with
          | some c => BoundVal.sv c
          | none => match o.ltOp with
            | some c => BoundVal.sv c
            | none => BoundVal.posInf
        { min := minB, max := maxB,
          isLowerBoundOnly := hasLower && !hasUpper, isUpperBoundOnly := hasUpper && !hasLower }
  match fv with
  | .bare (.date _) => fromObj {}
  | .bare v =>
    { min := .sv v, max := .sv v, isLowerBoundOnly := false, isUpperBoundOnly := false }
  | .obj o => fromObj o

/-- Whether a bound is a raw string (`typeof min === "string"`). -/
def boundIsString : BoundVal → Bool
  | .sv (.str _) => true
  | _ => false

/-- Pre-encoding of a string bound in string-comparison mode (lines 541-544). -/
def encodeBound (isStringComparison : Bool) : BoundVal → BoundVal
  | .sv (.str s) => if isStringComparison then .bytes (encodeStringToUint8 s) else .sv (.str s)
  | b => b

/-- Preparation of one sort-column cell (lines 550-561): the empty string becomes null; in
string-comparison mode every non-null value is stringified and encoded (a `Date` is otherwise
re-created from its timestamp, the identity here). -/
def prepCell (isStringComparison : Bool) (v : SheetValue) : CellVal :=
  let v := if v = SheetValue.str "" then SheetValue.null else v
  if isStringComparison && v ≠ SheetValue.null then
    CellVal.bytes (encodeStringToUint8 (jsToString v))
  else CellVal.sv v

/-- Embedding of `getSortedRangeFilteredRows` (lines 486-592) over the sort column's values
(`colValues`, the cells of rows `headerRow+1 .. headerRow+colValues.length`).  The
`{minRow: -1, maxRow: -1}` sentinel is modelled as `none`. -/
def getSortedRangeFilteredRows (headerRow : ℕ) (colValues : List SheetValue)
    (fv : FilterValue) (ascending : Bool) : Option (ℕ × ℕ) :=
  let rb := extractBounds fv
  let numRows := colValues.length
  if numRows = 0 then none
  else
    let isStringComparison := boundIsString rb.min || boundIsString rb.max
    let minB := encodeBound isStringComparison rb.min
    let maxB := encodeBound isStringComparison rb.max
    let values : List (CellVal × ℕ) :=
      colValues.enum.map fun iv => (prepCell isStringComparison iv.2, headerRow + iv.1 + 1)
    let values := if ascending then values else values.reverse
    let minBound : ℤ :=
      if !rb.isUpperBoundOnly then findRangeBound values minB true isStringComparison else 0
    if !rb.isUpperBoundOnly && minBound ≥ (values.length : ℤ) then none
    else
      let maxBound : ℤ :=
        if !rb.isLowerBoundOnly then findRangeBound values maxB false isStringComparison
        else (values.length : ℤ) - 1
      if minBound = -1 || maxBound = -1 || minBound > maxBound then none
      else
        let rowAt : ℤ → ℕ := fun i => (((values.get? i.toNat).map Prod.snd).getD 0)
        if ascending then some (rowAt minBound, rowAt maxBound)
        else some (rowAt maxBound, rowAt minBound)

/-- C1 (bug evidence): on the ascending sorted numeric column `[1, 2, 3]` (rows 2-4, header row
1) with predicate `{$between: [5, 6]}`, the Range Optimizer returns the non-empty interval
`[4, 4]` — the row holding the value `3` — although a linear scan with `evaluateFilter` matches
no row, so the source's own empty-result guard (`if (minBound >= values.length) return
{minRow: -1, maxRow: -1}`) was clearly intended to fire here; it cannot, because `findRangeBound`
clamps the insertion point `3` down to `2` before returning. -/
theorem C1_rangeOptimizer_spurious_interval :
    getSortedRangeFilteredRows 1 [SheetValue.num 1, SheetValue.num 2, SheetValue.num 3]
      (.obj { betweenOp := some (SheetValue.num 5, SheetValue.num 6) }) true = some (4, 4) ∧
    ([SheetValue.num 1, SheetValue.num 2, SheetValue.num 3].filter
      (fun v => evaluateFilter v
        (.obj { betweenOp := some (SheetValue.num 5, SheetValue.num 6) }))) = [] := by
  have h1 : findRangeBound
      [(CellVal.sv (SheetValue.num 1), 2), (CellVal.sv (SheetValue.num 2), 3),
       (CellVal.sv (SheetValue.num 3), 4)] (BoundVal.sv (SheetValue.num 5)) true false = 2 := by
    simp [findRangeBound, frbLoop, cellCompare, compareValues, bvStrictEq, bvLt, jsStrictEq,
      jsLt, jsToNumber]
    norm_num
  have h2 : findRangeBound
      [(CellVal.sv (SheetValue.num 1), 2), (CellVal.sv (SheetValue.num 2), 3),
       (CellVal.sv (SheetValue.num 3), 4)] (BoundVal.sv (SheetValue.num 6)) false false = 2 := by
    simp [findRangeBound, frbLoop, cellCompare, compareValues, bvStrictEq, bvLt, jsStrictEq,
      jsLt, jsToNumber]
    norm_num
  constructor
  · simp [getSortedRangeFilteredRows, extractBounds, boundIsString, encodeBound, prepCell,
      List.enum, List.enumFrom, h1, h2]
  · simp [evaluateFilter, evaluateFilterObj, optAll, jsGe, jsLe, jsLt, jsCmpDefined, jsToNumber]
    norm_num

/-! ### Record lifecycle (src/base/Entry.ts, second document, lines 689-1150) -/

/-- A resolved link target record, opaque for the purposes of this development. -/
structure Target where
  id : ℕ
deriving DecidableEq

/-- The runtime value of one record field: a scalar, a single-link facade
(`createLinkProxy`: the raw string plus the resolved target or `null`), an array-link facade
(`createLinkArrayProxy`: the raw string, the resolved targets in order, and the separator), or an
absent property (`col in this` is false). -/
inductive FieldVal where
  | sv (v : SheetValue)
  | linkProxy (raw : String) (target : Option Target)
  | linkArrayProxy (raw : String) (targets : List Target) (separator : String)
  | missing
deriving DecidableEq

/-- Embedding of `Entry.toRow` (lines 961-984): map the schema columns in order; a missing property becomes
null, a link facade is written as its `toString()` — the original raw string — and any other
value is written as is (`undefined` only arises from missing properties here). -/
def toRow (columns : List String) (fields : String → FieldVal) : List SheetValue :=
  columns.map fun col =>
    match fields col with
    | .missing => SheetValue.null
    | .sv v => v
    | .linkProxy raw _ => SheetValue.str raw
    | .linkArrayProxy raw _ _ => SheetValue.str raw

/-- Result of `validate()` (`ValidationResult`, lines 684-687).  `validate` is abstract and
subclass-defined, so a record carries its result as data. -/
structure ValidationResult where
  isValid : Bool
  errors : List String
deriving DecidableEq

/-- The in-memory state of an `Entry`: the lifecycle flags `_isDirty`, `_isNew`, `_row`
(lines 693-695, with their declared initial values `false`, `true`, `0`), the named fields, and
the record's `validate()` outcome. -/
structure Rec where
  isNew : Bool := true
  isDirty : Bool := false
  row : ℕ := 0
  fields : String → FieldVal := fun _ => FieldVal.missing
  validation : ValidationResult := { isValid := true, errors := [] }

/-- One row-store (SheetService) write call. -/
inductive StoreOp where
  | appendRow (rowData : List SheetValue)
  | updateRow (rowNumber : ℕ) (rowData : List SheetValue)
  | appendRows (rows : List (List SheetValue))
  | prependRows (rows : List (List SheetValue))
  | updateRows (updates : List (ℕ × List SheetValue))
  | deleteRow (rowNumber : ℕ)
  | sortSheet
deriving DecidableEq

/-- Embedding of `Entry.save` (lines 909-950): a clean record returns at once; a failed `validate()` throws
before any write; otherwise a new record is appended and an existing one positionally updated,
followed by the whole-table default sort when configured.  The base-class hooks (`beforeSave`
etc., lines 898-903) have empty bodies and issue no store calls; note the source clears
`_isDirty` but never clears `_isNew`.  The first component is the trace of row-store write calls
actually issued. -/
def save (columns : List String) (hasDefaultSort : Bool) (r : Rec) :
    List StoreOp × Except String Rec :=
  if !r.isDirty then ([], .ok r)
  else if !r.validation.isValid then
    ([], .error ("Validation failed: " ++ String.intercalate ", " r.validation.errors))
  else
    let writeOp := if r.isNew then StoreOp.appendRow (toRow columns r.fields)
      else StoreOp.updateRow r.row (toRow columns r.fields)
    let sortOps := if hasDefaultSort then [StoreOp.sortSheet] else []
    (writeOp :: sortOps, .ok { r with isDirty := false })

/-- Embedding of `Entry.delete` (lines 952-959): a new record is a no-op; otherwise the physical row is
deleted (and the record dropped from the instance cache); the lifecycle flags are left
untouched. -/
def deleteEntry (r : Rec) : List StoreOp × Rec :=
  if r.isNew then ([], r)
  else ([StoreOp.deleteRow r.row], r)

/-- Embedding of `Entry.fromRow` (lines 986-1002): reject a short row, assign the fields positionally in
column order, then set `_row`, clear `_isNew` and `_isDirty`. -/
def fromRow (columns : List String) (r : Rec) (rowData : List SheetValue) (rowNumber : ℕ) :
    Except String Rec :=
  if rowData.length < columns.length then
    .error "Row data has fewer columns than expected"
  else
    .ok { r with
      fields := columns.enum.foldl
        (fun f ic => fun name =>
          if name = ic.2 then FieldVal.sv (rowData.getD ic.1 SheetValue.null) else f name)
        r.fields,
      row := rowNumber, isNew := false, isDirty := false }

/-- Embedding of `Entry.batchSave` (lines 1022-1050): the dirty records are split into new ones (one bulk
append) and existing ones (one bulk positional update, chunked further inside
`SheetService.updateRows`), and all dirty records are then marked clean and not new — their
`_row` fields are never assigned. -/
def batchSave (columns : List String) (entries : List Rec) : List StoreOp × List Rec :=
  let dirtyEntries := entries.filter (·.isDirty)
  if dirtyEntries.length = 0 then ([], entries)
  else
    let newEntries := dirtyEntries.filter (·.isNew)
    let existingEntries := dirtyEntries.filter (fun e => !e.isNew)
    let ops1 :=
      if newEntries.length > 0 then
        [StoreOp.appendRows (newEntries.map fun e => toRow columns e.fields)]
      else []
    let ops2 :=
      if existingEntries.length > 0 then
        [StoreOp.updateRows (existingEntries.map fun e => (e.row, toRow columns e.fields))]
      else []
    (ops1 ++ ops2,
     entries.map fun e => if e.isDirty then { e with isDirty := false, isNew := false } else e)

/-- The `validationErrors` accumulation of `Entry.batchInsert` (lines 1099-1106): one message per
invalid entry, indexed by its 1-based position. -/
def batchValidationErrors (i : ℕ) : List Rec → List String
  | [] => []
  | e :: rest =>
    if e.validation.isValid then batchValidationErrors (i + 1) rest
    else
      ("Entry " ++ toString (i + 1) ++ ": " ++ String.intercalate ", " e.validation.errors) ::
        batchValidationErrors (i + 1) rest

/-- Embedding of `Entry.batchInsert` (lines 1053-1150), on `Entry` instances (plain data objects are first
turned into instances with the same fields; both paths mark every entry new and dirty before
validating).  All entries are validated before any write; on failure the whole batch throws with
no store call.  Otherwise a single bulk append (or prepend) is issued, the default sort applied
when configured, and every entry is marked clean and not new — `_row` is never assigned. -/
def batchInsert (columns : List String) (hasDefaultSort prepend : Bool) (data : List Rec) :
    List StoreOp × Except String (List Rec) :=
  if data.length = 0 then ([], .ok [])
  else
    let entries := data.map fun e => { e with isNew := true, isDirty := true }
    let validationErrors := batchValidationErrors 0 entries
    if validationErrors.length > 0 then
      ([], .error ("Batch validation failed: " ++ String.intercalate "; " validationErrors))
    else
      let rows := entries.map fun e => toRow columns e.fields
      let insOp := if prepend then StoreOp.prependRows rows else StoreOp.appendRows rows
      let sortOps := if hasDefaultSort then [StoreOp.sortSheet] else []
      (insOp :: sortOps, .ok (entries.map fun e => { e with isDirty := false, isNew := false }))

/-- An invalid batch produces at least one validation message, whatever the running index. -/
theorem batchValidationErrors_ne_nil (i : ℕ) (l : List Rec) (e : Rec) (he : e ∈ l)
    (hv : e.validation.isValid = false) : batchValidationErrors i l ≠ [] := by
  induction l generalizing i with
  | nil => simp at he
  | cons a t ih =>
    rcases List.mem_cons.mp he with rfl | hmem
    · simp [batchValidationErrors, hv]
    · by_cases ha : a.validation.isValid <;>
        simp [batchValidationErrors, ha, ih _ hmem]

/-- C2 counterexample: a record that is invalid but not dirty.  `save()` returns at the
`if (!this._isDirty) return` guard without ever running `validate()`, so it does not throw —
the claim asserts a throw for every invalid record. -/
theorem C2_counterexample :
    (save ["name"] false
        { isDirty := false, validation := { isValid := false, errors := ["name is required"] } }).2
      = .ok { isDirty := false,
              validation := { isValid := false, errors := ["name is required"] } } ∧
    (save ["name"] false
        { isDirty := false, validation := { isValid := false, errors := ["name is required"] } }).1
      = [] :=
  ⟨rfl, rfl⟩

/-- C2 (amended): for every dirty record whose `validate()` fails, `save()` throws with zero
row-store write calls (no append, update, or sort); a clean record is a no-op regardless of
validity; and for every batch containing an invalid record, `batchInsert` throws before any
append or prepend is issued, leaving the store untouched for the entire batch. -/
theorem C2_validation_gate (columns : List String) (hasDefaultSort prepend : Bool) (r : Rec)
    (entries : List Rec) (hd : r.isDirty = true) (hv : r.validation.isValid = false)
    (hbad : ∃ e ∈ entries, e.validation.isValid = false) :
    ((save columns hasDefaultSort r).1 = [] ∧
      ∃ msg, (save columns hasDefaultSort r).2 = Except.error msg) ∧
    ((batchInsert columns hasDefaultSort prepend entries).1 = [] ∧
      ∃ msg, (batchInsert columns hasDefaultSort prepend entries).2 = Except.error msg) := by
  obtain ⟨e, he, hev⟩ := hbad
  have hlen : ¬entries.length = 0 := by
    rcases entries with _ | ⟨a, t⟩
    · simp at he
    · simp
  have hmark : ({ e with isNew := true, isDirty := true } : Rec) ∈
      entries.map (fun e => { e with isNew := true, isDirty := true }) :=
    List.mem_map_of_mem _ he
  have herr : batchValidationErrors 0
      (entries.map fun e => { e with isNew := true, isDirty := true }) ≠ [] :=
    batchValidationErrors_ne_nil 0 _ _ hmark hev
  have herrLen : 0 < (batchValidationErrors 0
      (entries.map fun e => { e with isNew := true, isDirty := true })).length :=
    List.length_pos.mpr herr
  refine ⟨⟨?_, ?_⟩, ?_, ?_⟩
  · simp [save, hd, hv]
  · simp [save, hd, hv]
  · simp [batchInsert, hlen, herrLen]
  · simp [batchInsert, hlen, herrLen]

/-- Witness for C2 (amended): a dirty invalid record and a one-record invalid batch. -/
theorem C2_validation_gate_witness :
    ((save ["name"] false
        { isDirty := true,
          validation := { isValid := false, errors := ["name is required"] } }).1 = [] ∧
      ∃ msg, (save ["name"] false
        { isDirty := true,
          validation := { isValid := false, errors := ["name is required"] } }).2 =
          Except.error msg) ∧
    ((batchInsert ["name"] false false
        [{ isDirty := true,
           validation := { isValid := false, errors := ["name is required"] } }]).1 = [] ∧
      ∃ msg, (batchInsert ["name"] false false
        [{ isDirty := true,
           validation := { isValid := false, errors := ["name is required"] } }]).2 =
          Except.error msg) :=
  C2_validation_gate ["name"] false false
    { isDirty := true, validation := { isValid := false, errors := ["name is required"] } }
    [{ isDirty := true, validation := { isValid := false, errors := ["name is required"] } }]
    rfl rfl ⟨_, List.mem_singleton.mpr rfl, rfl⟩

/-- C3: whenever a record is flattened back into row form, a field holding a link facade —
single or array, resolved or not — is written as exactly its original raw string; resolved
target data never appears in the link column. -/
theorem C3_toRow_writes_raw_string (columns : List String) (fields : String → FieldVal)
    (i : ℕ) (hi : i < columns.length) (raw : String)
    (hlink : (∃ t, fields columns[i] = FieldVal.linkProxy raw t) ∨
      (∃ ts sep, fields columns[i] = FieldVal.linkArrayProxy raw ts sep)) :
    (toRow columns fields)[i]? = some (SheetValue.str raw) := by
  have hget : columns[i]? = some columns[i] := List.getElem?_eq_getElem hi
  rcases hlink with ⟨t, ht⟩ | ⟨ts, sep, ht⟩ <;>
    simp [toRow, List.getElem?_map, hget, ht]

/-- Witness for C3 at a two-column record whose `manager` field holds an unresolved facade with
raw value `"Alice"`. -/
theorem C3_toRow_writes_raw_string_witness :
    (toRow ["name", "manager"] (fun col =>
        if col = "manager" then FieldVal.linkProxy "Alice" none
        else FieldVal.sv (SheetValue.str "Bob")))[1]? = some (SheetValue.str "Alice") :=
  C3_toRow_writes_raw_string ["name", "manager"] _ 1 (by decide) "Alice" (Or.inl ⟨none, rfl⟩)

/-- C9 (bug evidence): `batchInsert` of a single valid record issues the bulk append but leaves
the returned record with `isNew = false` and `row = 0` — the appended physical row number is
never stored, so the record has no valid backing row (rows are 1-based).  `batchSave` marks its
appended records the same way (lines 1045-1049). -/
theorem C9_batchInsert_leaves_row_unset :
    (batchInsert ["name"] false false
        [{ isDirty := true,
           fields := fun name =>
             if name = "name" then FieldVal.sv (SheetValue.str "Alice") else FieldVal.missing }]).1
      = [StoreOp.appendRows [[SheetValue.str "Alice"]]] ∧
    ∃ r, (batchInsert ["name"] false false
        [{ isDirty := true,
           fields := fun name =>
             if name = "name" then FieldVal.sv (SheetValue.str "Alice") else FieldVal.missing }]).2
      = .ok [r] ∧ r.isNew = false ∧ r.row = 0 := by
  exact ⟨rfl, ⟨_, rfl, rfl, rfl⟩⟩

/-! ### Relationship resolver (src/base/Entry.ts lines 808-896, src/base/Link.ts) -/

/-- A declared link field (`LinkMetadata`, src/base/Link.ts lines 10-16): the field name,
whether it is a separator-delimited array link, the declared separator (the call site applies
the `","` default, line 829), and the target type's lookup — `EntryType.get({[targetField]: x})`
followed by `results[0]`, modelled as a function from the filter value to the first matching
target, `none` when nothing matches. -/
structure LinkMeta where
  fieldName : String
  isArray : Bool := false
  separator : Option String := none
  lookup : SheetValue → Option Target := fun _ => none

/-- JS truthiness of a field value (`if (!linkValue) continue`, line 816): a facade is an object
and hence truthy; a missing property is `undefined` and falsy. -/
def fieldTruthy : FieldVal → Bool
  | .sv v => jsTruthy v
  | .linkProxy _ _ => true
  | .linkArrayProxy _ _ _ => true
  | .missing => false

/-- Whether a field value already holds a facade (`currentValue?.[IS_LINK_PROXY]`, line 822). -/
def isLinkProxyVal : FieldVal → Bool
  | .linkProxy _ _ => true
  | .linkArrayProxy _ _ _ => true
  | _ => false

/-- The trimmed, non-empty parts of an array link's raw value
(`String(linkValue).split(separator).map(name => name.trim()).filter(Boolean)`, line 830). -/
def linkNames (raw separator : String) : List String :=
  ((raw.splitOn separator).map String.trim).filter (fun s => s ≠ "")

/-- Processing of one declared link by `Entry.getLinkedObjects` (lines 812-893): skip an empty or
already-proxied field; for an array link, look up each part in order, collect the found targets,
and install the array facade even if some were not found; for a single link, look up the raw
value and install the facade with the result (or no backing target).  Returns the updated fields
and whether every referenced target was found.  The source's `try`/`catch` turns any thrown
lookup error into `allExist = false`; lookups are total here, so nothing ever escapes. -/
def processLink (link : LinkMeta) (fields : String → FieldVal) : Bool × (String → FieldVal) :=
  let linkValue := fields link.fieldName
  if !fieldTruthy linkValue then (true, fields)
  else if isLinkProxyVal linkValue then (true, fields)
  else
    match linkValue with
    | .sv v =>
      if link.isArray then
        let separator := link.separator.getD ","
        let names := linkNames (jsToString v) separator
        let linkedObjects := names.filterMap fun n => link.lookup (SheetValue.str n)
        (names.all fun n => (link.lookup (SheetValue.str n)).isSome,
         fun name => if name = link.fieldName then
           FieldVal.linkArrayProxy (jsToString v) linkedObjects separator else fields name)
      else
        let res := link.lookup v
        (res.isSome,
         fun name => if name = link.fieldName then
           FieldVal.linkProxy (jsToString v) res else fields name)
    | _ => (true, fields)

/-- Embedding of `Entry.getLinkedObjects` (lines 808-896): process every declared link in order, threading the
field updates and conjoining the per-link outcomes into `allExist`. -/
def getLinkedObjects : List LinkMeta → (String → FieldVal) → Bool × (String → FieldVal)
  | [], fields => (true, fields)
  | link :: rest, fields =>
    let p := processLink link fields
    let r := getLinkedObjects rest p.2
    (p.1 && r.1, r.2)

/-- The resolution-success condition for one link field, as the claim words it: if the field
holds a truthy scalar, every referenced target must look up to an existing record. -/
def linkResolves (link : LinkMeta) (fv : FieldVal) : Bool :=
  match fv with
  | .sv v =>
    if jsTruthy v then
      if link.isArray then
        (linkNames (jsToString v) (link.separator.getD ",")).all
          fun n => (link.lookup (SheetValue.str n)).isSome
      else (link.lookup v).isSome
    else true
  | _ => true

/-- Lemma: `processLink` touches no field other than its own. -/
theorem processLink_preserve (link : LinkMeta) (fields : String → FieldVal) (name : String)
    (hne : name ≠ link.fieldName) : (processLink link fields).2 name = fields name := by
  unfold processLink
  cases hfv : fields link.fieldName with
  | sv v =>
    by_cases ht : jsTruthy v
    · by_cases ha : link.isArray <;> simp [fieldTruthy, ht, ha, isLinkProxyVal, hne]
    · simp [fieldTruthy, ht]
  | linkProxy raw t => simp [fieldTruthy, isLinkProxyVal]
  | linkArrayProxy raw ts sep => simp [fieldTruthy, isLinkProxyVal]
  | missing => simp [fieldTruthy]

/-- Lemma: `getLinkedObjects` touches no field outside the declared link fields. -/
theorem getLinkedObjects_preserve :
    ∀ (metadata : List LinkMeta) (fields : String → FieldVal) (name : String),
      (∀ link ∈ metadata, name ≠ link.fieldName) →
      (getLinkedObjects metadata fields).2 name = fields name
  | [], _, _, _ => rfl
  | link :: rest, fields, name, h => by
    simp only [getLinkedObjects]
    rw [getLinkedObjects_preserve rest _ name fun l hl => h l (List.mem_cons_of_mem _ hl),
      processLink_preserve link fields name (h link (List.mem_cons_self _ _))]

/-- On a field that does not already hold a facade, the per-link outcome of `processLink` is the
resolution-success condition. -/
theorem processLink_ok (link : LinkMeta) (fields : String → FieldVal)
    (hfresh : isLinkProxyVal (fields link.fieldName) = false) :
    (processLink link fields).1 = linkResolves link (fields link.fieldName) := by
  unfold processLink linkResolves
  cases hfv : fields link.fieldName with
  | sv v =>
    by_cases ht : jsTruthy v
    · by_cases ha : link.isArray <;> simp [fieldTruthy, ht, ha, isLinkProxyVal]
    · simp [fieldTruthy, ht]
  | linkProxy raw t => rw [hfv] at hfresh; simp [isLinkProxyVal] at hfresh
  | linkArrayProxy raw ts sep => rw [hfv] at hfresh; simp [isLinkProxyVal] at hfresh
  | missing => simp [fieldTruthy]

/-- On a truthy scalar link field, `processLink` installs the facade built from the raw string,
whatever the lookup outcomes. -/
theorem processLink_installs (link : LinkMeta) (fields : String → FieldVal) (v : SheetValue)
    (hfv : fields link.fieldName = FieldVal.sv v) (htv : jsTruthy v = true) :
    (processLink link fields).2 link.fieldName =
      (if link.isArray then
        FieldVal.linkArrayProxy (jsToString v)
          ((linkNames (jsToString v) (link.separator.getD ",")).filterMap
            fun n => link.lookup (SheetValue.str n)) (link.separator.getD ",")
       else FieldVal.linkProxy (jsToString v) (link.lookup v)) := by
  unfold processLink
  rw [hfv]
  by_cases ha : link.isArray <;> simp [fieldTruthy, htv, isLinkProxyVal, ha]

/-- C8 counterexample: a record whose `manager` field already holds a facade with raw value
`"Ghost"` and no backing target (as left by a previous failed resolution).  `getLinkedObjects`
skips the field (`currentValue?.[IS_LINK_PROXY]`) and returns `true`, although the field's
non-empty raw value refers to a target that does not exist (the lookup finds nothing). -/
theorem C8_counterexample :
    (getLinkedObjects [{ fieldName := "manager", lookup := fun _ => none }]
        (fun name => if name = "manager" then FieldVal.linkProxy "Ghost" none
          else FieldVal.missing)).1 = true ∧
    (fun name => if name = "manager" then FieldVal.linkProxy "Ghost" none
      else FieldVal.missing) "manager" = FieldVal.linkProxy "Ghost" none ∧
    ({ fieldName := "manager", lookup := fun _ => none } : LinkMeta).lookup
      (SheetValue.str "Ghost") = none :=
  ⟨rfl, rfl, rfl⟩

/-- C8 (amended): on a record none of whose declared link fields already holds a facade,
`getLinkedObjects` returns `true` exactly when every declared link field with a truthy raw value
resolved every referenced target to an existing record; the call is total (an unresolvable
target is reported only through the boolean), and the facade is installed on every truthy scalar
link field — holding the raw string and, for array links, exactly the targets that were found —
whether or not resolution succeeded.  A field already holding a facade is skipped and never
affects the boolean. -/
theorem C8_resolution_aggregate (metadata : List LinkMeta) (fields : String → FieldVal)
    (hnodup : (metadata.map LinkMeta.fieldName).Nodup)
    (hfresh : ∀ link ∈ metadata, isLinkProxyVal (fields link.fieldName) = false) :
    ((getLinkedObjects metadata fields).1 = true ↔
      ∀ link ∈ metadata, linkResolves link (fields link.fieldName) = true) ∧
    (∀ link ∈ metadata, ∀ v, fields link.fieldName = FieldVal.sv v → jsTruthy v = true →
      (getLinkedObjects metadata fields).2 link.fieldName =
        (if link.isArray then
          FieldVal.linkArrayProxy (jsToString v)
            ((linkNames (jsToString v) (link.separator.getD ",")).filterMap
              fun n => link.lookup (SheetValue.str n)) (link.separator.getD ",")
         else FieldVal.linkProxy (jsToString v) (link.lookup v))) := by
  induction metadata generalizing fields with
  | nil => simp [getLinkedObjects]
  | cons link rest ih =>
    have hnotin : link.fieldName ∉ rest.map LinkMeta.fieldName :=
      (List.nodup_cons.mp hnodup).1
    have hnodup' : (rest.map LinkMeta.fieldName).Nodup := (List.nodup_cons.mp hnodup).2
    have hfreshHead := hfresh link (List.mem_cons_self _ _)
    have hpres : ∀ l ∈ rest, (processLink link fields).2 l.fieldName = fields l.fieldName := by
      intro l hl
      refine processLink_preserve link fields l.fieldName fun heq => ?_
      exact hnotin (heq ▸ List.mem_map_of_mem LinkMeta.fieldName hl)
    have hfresh' : ∀ l ∈ rest, isLinkProxyVal ((processLink link fields).2 l.fieldName) = false := by
      intro l hl
      rw [hpres l hl]
      exact hfresh l (List.mem_cons_of_mem _ hl)
    obtain ⟨ihiff, ihinst⟩ := ih (processLink link fields).2 hnodup' hfresh'
    constructor
    · simp only [getLinkedObjects, Bool.and_eq_true]
      rw [processLink_ok link fields hfreshHead]
      constructor
      · rintro ⟨h1, h2⟩ l hl
        rcases List.mem_cons.mp hl with rfl | hl'
        · exact h1
        · have hres := ihiff.mp h2 l hl'
          rwa [hpres l hl'] at hres
      · intro hall
        refine ⟨hall link (List.mem_cons_self _ _), ihiff.mpr fun l hl' => ?_⟩
        rw [hpres l hl']
        exact hall l (List.mem_cons_of_mem _ hl')
    · intro l hl v hfv htv
      rcases List.mem_cons.mp hl with rfl | hl'
      · simp only [getLinkedObjects]
        rw [getLinkedObjects_preserve rest _ l.fieldName fun l2 hl2 heq =>
          hnotin (heq ▸ List.mem_map_of_mem LinkMeta.fieldName hl2)]
        exact processLink_installs l fields v hfv htv
      · have hfv' : (processLink link fields).2 l.fieldName = FieldVal.sv v := by
          rw [hpres l hl']
          exact hfv
        simpa only [getLinkedObjects] using ihinst l hl' v hfv' htv

/-- Witness for C8 (amended): one array link `members = "A, B,C"` where `"B"` has no target. -/
def membersLink : LinkMeta :=
  { fieldName := "members", isArray := true,
    lookup := fun v =>
      if v = SheetValue.str "A" then some ⟨1⟩
      else if v = SheetValue.str "C" then some ⟨3⟩ else none }

/-- Concrete fields for the C8/C10 witnesses. -/
def membersFields : String → FieldVal := fun name =>
  if name = "members" then FieldVal.sv (SheetValue.str "A, B,C") else FieldVal.missing

theorem C8_resolution_aggregate_witness :
    ((getLinkedObjects [membersLink] membersFields).1 = true ↔
      ∀ link ∈ [membersLink], linkResolves link (membersFields link.fieldName) = true) ∧
    (∀ link ∈ [membersLink], ∀ v,
      membersFields link.fieldName = FieldVal.sv v → jsTruthy v = true →
      (getLinkedObjects [membersLink] membersFields).2 link.fieldName =
        (if link.isArray then
          FieldVal.linkArrayProxy (jsToString v)
            ((linkNames (jsToString v) (link.separator.getD ",")).filterMap
              fun n => link.lookup (SheetValue.str n)) (link.separator.getD ",")
         else FieldVal.linkProxy (jsToString v) (link.lookup v))) :=
  C8_resolution_aggregate [membersLink] membersFields (by simp)
    (by intro l hl; rw [List.mem_singleton.mp hl]; rfl)

/-- The `length` trap of `createLinkArrayProxy` (src/base/Link.ts lines 223-225): the number of
resolved targets, not the number of raw parts. -/
def linkArrayLength (targets : List Target) : ℕ := targets.length

/-- The numeric-index trap (lines 228-231): `linkedObjects[index]`, `undefined` out of range. -/
def linkArrayIndex (targets : List Target) (i : ℕ) : Option Target := targets[i]?

/-- The `join` trap (lines 241-246): rebuilt from `stringValue.split(separator).map(s =>
s.trim())` — with no `filter(Boolean)`, unlike the lookup path — joined with the given joiner
(the separator when none is passed). -/
def linkArrayJoin (stringValue separator : String) (joiner : Option String) : String :=
  String.intercalate (joiner.getD separator) ((stringValue.splitOn separator).map String.trim)

/-- The number of kept `filterMap` results is the count of elements the function succeeds on. -/
theorem filterMap_length_countP (f : α → Option β) :
    ∀ l : List α, (l.filterMap f).length = l.countP fun a => (f a).isSome := by
  intro l
  induction l with
  | nil => rfl
  | cons a t ih => cases hf : f a <;> simp [List.filterMap_cons, hf, List.countP_cons, ih]

/-- Lemma: `filterMap` strictly shrinks a list containing an element the function fails on. -/
theorem filterMap_length_lt (f : α → Option β) :
    ∀ (l : List α) (a : α), a ∈ l → f a = none → (l.filterMap f).length < l.length := by
  intro l
  induction l with
  | nil => intro a ha; simp at ha
  | cons b t ih =>
    intro a ha hf
    have hle : (t.filterMap f).length ≤ t.length := List.length_filterMap_le f t
    rcases List.mem_cons.mp ha with rfl | hmem
    · simp only [List.filterMap_cons, hf, List.length_cons]
      omega
    · have hlt := ih a hmem hf
      cases hb : f b <;> simp only [List.filterMap_cons, hb, List.length_cons] <;> omega

/-- C10: after resolving an array link, the facade's `length` (and its numeric indexing) sees
only the successfully resolved targets — `length` is the count of trimmed, non-empty parts whose
lookup succeeded — while `join()` reconstructs from all trimmed separator-delimited parts of the
raw string; hence when some part fails to resolve, `length` is strictly smaller than the number
of parts `join()` emits. -/
theorem C10_array_facade_length_vs_join (link : LinkMeta) (fields : String → FieldVal)
    (raw : String) (harr : link.isArray = true)
    (hf : fields link.fieldName = FieldVal.sv (SheetValue.str raw)) (hraw : raw ≠ "") :
    ((getLinkedObjects [link] fields).2 link.fieldName =
      FieldVal.linkArrayProxy raw
        ((linkNames raw (link.separator.getD ",")).filterMap
          fun n => link.lookup (SheetValue.str n)) (link.separator.getD ",")) ∧
    linkArrayLength ((linkNames raw (link.separator.getD ",")).filterMap
        fun n => link.lookup (SheetValue.str n)) =
      (linkNames raw (link.separator.getD ",")).countP
        (fun n => (link.lookup (SheetValue.str n)).isSome) ∧
    (∀ i, linkArrayIndex ((linkNames raw (link.separator.getD ",")).filterMap
        fun n => link.lookup (SheetValue.str n)) i = none ↔
      linkArrayLength ((linkNames raw (link.separator.getD ",")).filterMap
        fun n => link.lookup (SheetValue.str n)) ≤ i) ∧
    (∀ j, linkArrayJoin raw (link.separator.getD ",") (some j) =
      String.intercalate j ((raw.splitOn (link.separator.getD ",")).map String.trim)) ∧
    ((∃ n ∈ linkNames raw (link.separator.getD ","), link.lookup (SheetValue.str n) = none) →
      linkArrayLength ((linkNames raw (link.separator.getD ",")).filterMap
          fun n => link.lookup (SheetValue.str n)) <
        ((raw.splitOn (link.separator.getD ",")).map String.trim).length) := by
  refine ⟨?_, filterMap_length_countP _ _,
    fun i => by simp [linkArrayIndex, linkArrayLength], fun j => rfl, ?_⟩
  · have hinst := processLink_installs link fields (SheetValue.str raw) hf (by
      simpa [jsTruthy] using hraw)
    simp only [getLinkedObjects]
    rw [hinst, harr]
    simp [jsToString]
  · rintro ⟨n, hn, hnone⟩
    have h1 : ((linkNames raw (link.separator.getD ",")).filterMap
        fun n => link.lookup (SheetValue.str n)).length <
        (linkNames raw (link.separator.getD ",")).length :=
      filterMap_length_lt _ _ n hn hnone
    have h2 : (linkNames raw (link.separator.getD ",")).length ≤
        ((raw.splitOn (link.separator.getD ",")).map String.trim).length :=
      List.length_filter_le _ _
    exact lt_of_lt_of_le h1 h2

/-- Witness for C10 at the spec's scenario `"A, B,C"` with separator `","` where `"B"` has no
target: the facade exposes 2 resolved targets while `join` emits 3 parts. -/
theorem C10_array_facade_length_vs_join_witness :
    ((getLinkedObjects [membersLink] membersFields).2 membersLink.fieldName =
      FieldVal.linkArrayProxy "A, B,C"
        ((linkNames "A, B,C" (membersLink.separator.getD ",")).filterMap
          fun n => membersLink.lookup (SheetValue.str n)) (membersLink.separator.getD ",")) ∧
    linkArrayLength ((linkNames "A, B,C" (membersLink.separator.getD ",")).filterMap
        fun n => membersLink.lookup (SheetValue.str n)) =
      (linkNames "A, B,C" (membersLink.separator.getD ",")).countP
        (fun n => (membersLink.lookup (SheetValue.str n)).isSome) ∧
    (∀ i, linkArrayIndex ((linkNames "A, B,C" (membersLink.separator.getD ",")).filterMap
        fun n => membersLink.lookup (SheetValue.str n)) i = none ↔
      linkArrayLength ((linkNames "A, B,C" (membersLink.separator.getD ",")).filterMap
        fun n => membersLink.lookup (SheetValue.str n)) ≤ i) ∧
    (∀ j, linkArrayJoin "A, B,C" (membersLink.separator.getD ",") (some j) =
      String.intercalate j ((("A, B,C").splitOn (membersLink.separator.getD ",")).map
        String.trim)) ∧
    ((∃ n ∈ linkNames "A, B,C" (membersLink.separator.getD ","),
        membersLink.lookup (SheetValue.str n) = none) →
      linkArrayLength ((linkNames "A, B,C" (membersLink.separator.getD ",")).filterMap
          fun n => membersLink.lookup (SheetValue.str n)) <
        ((("A, B,C").splitOn (membersLink.separator.getD ",")).map String.trim).length) :=
  C10_array_facade_length_vs_join membersLink membersFields "A, B,C" rfl rfl (by decide)

/-! ### Query Engine phase 3: contiguous-run grouping (src/services/SheetService.ts, 446-479) -/

/-- One grouped range of `getFilteredRows` phase 3: `{start, count, originalRows}`. -/
structure RowRun where
  start : ℕ
  count : ℕ
  originalRows : List ℕ
deriving DecidableEq

/-- The grouping loop (lines 451-463): `prev` is the previously consumed matching row number
(`matchingRowNumbers[i-1]`); a consecutive row extends the current range, any other row closes
it and starts a new one. -/
def groupRunsGo (cur : RowRun) (prev : ℕ) : List ℕ → List RowRun
  | [] => [cur]
  | m :: rest =>
    if m = prev + 1 then
      groupRunsGo { cur with count := cur.count + 1, originalRows := cur.originalRows ++ [m] }
        m rest
    else
      cur :: groupRunsGo { start := m, count := 1, originalRows := [m] } m rest

/-- Grouping of the sorted matching row numbers into consecutive ranges (lines 448-464). -/
def groupRuns : List ℕ → List RowRun
  | [] => []
  | m :: rest => groupRunsGo { start := m, count := 1, originalRows := [m] } m rest

/-- Phase-3 retrieval (lines 466-477): one rectangular read per grouped range — rows
`start .. start + count - 1` at full row width, modelled by `fetch` giving each physical row's
data — and the `i`-th returned row is labelled `originalRows[i]`. -/
def retrieveResults (fetch : ℕ → List SheetValue) (ms : List ℕ) :
    List (ℕ × List SheetValue) :=
  (groupRuns ms).flatMap fun run =>
    (List.range run.count).map fun i => (run.originalRows.getD i 0, fetch (run.start + i))

/-- The grouping loop always returns a first range, and that range starts where the current
range does. -/
theorem groupRunsGo_head_start :
    ∀ (rest : List ℕ) (cur : RowRun) (prev : ℕ),
      ∃ r rs, groupRunsGo cur prev rest = r :: rs ∧ r.start = cur.start := by
  intro rest
  induction rest with
  | nil => intro cur prev; exact ⟨cur, [], rfl, rfl⟩
  | cons m rest' ih =>
    intro cur prev
    by_cases hm : m = prev + 1
    · obtain ⟨r, rs, heq, hst⟩ := ih
        { cur with count := cur.count + 1, originalRows := cur.originalRows ++ [m] } m
      exact ⟨r, rs, by simp only [groupRunsGo, if_pos hm]; exact heq, hst⟩
    · exact ⟨cur, groupRunsGo { start := m, count := 1, originalRows := [m] } m rest',
        by simp only [groupRunsGo, if_neg hm], rfl⟩

/-- Invariant-carrying specification of the grouping loop: starting from a well-formed current
range whose last row is `prev`, on a strictly ascending remainder the produced ranges
concatenate back to the input rows, each range is a non-empty block of consecutive rows, and
consecutive ranges are separated by a gap (maximality). -/
theorem groupRunsGo_spec :
    ∀ (rest : List ℕ) (cur : RowRun) (prev : ℕ),
      0 < cur.count →
      cur.originalRows = List.range' cur.start cur.count →
      prev + 1 = cur.start + cur.count →
      List.Chain' (fun a b => a < b) (prev :: rest) →
      (((groupRunsGo cur prev rest).map RowRun.originalRows).flatten =
          cur.originalRows ++ rest) ∧
      (∀ r ∈ groupRunsGo cur prev rest,
          0 < r.count ∧ r.originalRows = List.range' r.start r.count) ∧
      List.Chain' (fun r1 r2 => r1.start + r1.count < r2.start) (groupRunsGo cur prev rest) := by
  intro rest
  induction rest with
  | nil =>
    intro cur prev hpos hrows _ _
    refine ⟨by simp [groupRunsGo], ?_, by simp [groupRunsGo]⟩
    intro r hr
    rw [show r = cur from List.mem_singleton.mp hr]
    exact ⟨hpos, hrows⟩
  | cons m rest' ih =>
    intro cur prev hpos hrows hprev hchain
    have hlt : prev < m := (List.chain'_cons.mp hchain).1
    have hchain' : List.Chain' (fun a b => a < b) (m :: rest') :=
      (List.chain'_cons.mp hchain).2
    by_cases hm : m = prev + 1
    · have hgo : groupRunsGo cur prev (m :: rest') =
          groupRunsGo
            { cur with count := cur.count + 1, originalRows := cur.originalRows ++ [m] }
            m rest' := by
        simp only [groupRunsGo, if_pos hm]
      have hmeq : m = cur.start + 1 * cur.count := by omega
      have hrows' : cur.originalRows ++ [m] = List.range' cur.start (cur.count + 1) := by
        rw [List.range'_concat, ← hrows, hmeq]
      obtain ⟨hj, hr, hc⟩ := ih
        { cur with count := cur.count + 1, originalRows := cur.originalRows ++ [m] } m
        (by simp) (by simpa using hrows') (by simp; omega) hchain'
      refine ⟨?_, ?_, ?_⟩
      · rw [hgo, hj]
        simp
      · rw [hgo]; exact hr
      · rw [hgo]; exact hc
    · have hgo : groupRunsGo cur prev (m :: rest') =
          cur :: groupRunsGo { start := m, count := 1, originalRows := [m] } m rest' := by
        simp only [groupRunsGo, if_neg hm]
      obtain ⟨hj, hr, hc⟩ := ih { start := m, count := 1, originalRows := [m] } m
        (by simp) (by simp) (by simp) hchain'
      obtain ⟨r0, rs0, hrec, hst0⟩ :=
        groupRunsGo_head_start rest' { start := m, count := 1, originalRows := [m] } m
      refine ⟨?_, ?_, ?_⟩
      · rw [hgo]
        simp only [List.map_cons, List.flatten_cons, hj]
        simp
      · rw [hgo]
        intro r hrm
        rcases List.mem_cons.mp hrm with rfl | hmem
        · exact ⟨hpos, hrows⟩
        · exact hr r hmem
      · rw [hgo]
        refine List.chain'_cons'.mpr ⟨?_, hc⟩
        intro y hy
        rw [hrec] at hy
        simp only [List.head?_cons, Option.mem_def, Option.some.injEq] at hy
        rw [← hy, hst0]
        show cur.start + cur.count < m
        omega

/-- Pointwise form of one rectangular read: the `i`-th row of the block starting at `s` is row
`s + i`, which is also `originalRows[i]` when the range is the consecutive block. -/
theorem run_read_eq (fetch : ℕ → List SheetValue) (s n : ℕ) :
    (List.range n).map (fun i => ((List.range' s n).getD i 0, fetch (s + i))) =
      (List.range' s n).map fun m => (m, fetch m) := by
  have h1 : (List.range n).map (fun i => ((List.range' s n).getD i 0, fetch (s + i))) =
      (List.range n).map fun i => (s + i, fetch (s + i)) := by
    apply List.map_congr_left
    intro i hi
    have hilt : i < n := List.mem_range.mp hi
    have hget : (List.range' s n).getD i 0 = s + i := by
      rw [List.getD_eq_getElem?_getD, List.getElem?_range' s 1 hilt]
      simp
    rw [hget]
  have h2 : (List.range' s n).map (fun m => (m, fetch m)) =
      (List.range n).map fun i => (s + i, fetch (s + i)) := by
    rw [List.range'_eq_map_range, List.map_map]
    rfl
  rw [h1, h2]

/-- C4: for every strictly ascending list of matching row numbers, phase 3 of the Query Engine
issues exactly one rectangular read per maximal run of consecutive row numbers — the produced
ranges are non-empty consecutive blocks that concatenate back to the matching rows, and
consecutive ranges are separated by a gap — and every returned result carries its true row
number; in particular `[3, 4, 5, 9, 10, 15]` produces exactly the 3 reads `(3, 3)`, `(9, 2)`,
`(15, 1)`, covering rows 3-5, 9-10 and 15. -/
theorem C4_contiguous_run_grouping (ms : List ℕ)
    (hs : List.Chain' (fun a b => a < b) ms) :
    ((groupRuns ms).map RowRun.originalRows).flatten = ms ∧
    (∀ r ∈ groupRuns ms, 0 < r.count ∧ r.originalRows = List.range' r.start r.count) ∧
    List.Chain' (fun r1 r2 => r1.start + r1.count < r2.start) (groupRuns ms) ∧
    (∀ fetch, retrieveResults fetch ms = ms.map fun m => (m, fetch m)) ∧
    (groupRuns [3, 4, 5, 9, 10, 15]).map (fun r => (r.start, r.count)) =
      [(3, 3), (9, 2), (15, 1)] := by
  have main : ((groupRuns ms).map RowRun.originalRows).flatten = ms ∧
      (∀ r ∈ groupRuns ms, 0 < r.count ∧ r.originalRows = List.range' r.start r.count) ∧
      List.Chain' (fun r1 r2 => r1.start + r1.count < r2.start) (groupRuns ms) := by
    cases ms with
    | nil => exact ⟨rfl, by simp [groupRuns], by simp [groupRuns]⟩
    | cons m rest =>
      obtain ⟨hj, hr, hc⟩ := groupRunsGo_spec rest { start := m, count := 1, originalRows := [m] }
        m (by simp) (by simp) (by simp) hs
      exact ⟨by simpa [groupRuns] using hj, by simpa [groupRuns] using hr,
        by simpa [groupRuns] using hc⟩
  obtain ⟨hj, hr, hc⟩ := main
  refine ⟨hj, hr, hc, ?_, rfl⟩
  intro fetch
  unfold retrieveResults
  rw [List.flatMap_def]
  have hmaps : (groupRuns ms).map (fun run => (List.range run.count).map fun i =>
      (run.originalRows.getD i 0, fetch (run.start + i))) =
      (groupRuns ms).map fun run => run.originalRows.map fun m => (m, fetch m) := by
    apply List.map_congr_left
    intro r hrm
    obtain ⟨_, hrows⟩ := hr r hrm
    rw [hrows]
    exact run_read_eq fetch r.start r.count
  rw [hmaps]
  rw [show (fun run => run.originalRows.map fun m => (m, fetch m)) =
      (fun l => l.map fun m => (m, fetch m)) ∘ RowRun.originalRows from rfl]
  rw [← List.map_map, ← List.map_flatten, hj]

/-- Witness for C4 at the spec's example `[3, 4, 5, 9, 10, 15]`. -/
theorem C4_contiguous_run_grouping_witness :
    ((groupRuns [3, 4, 5, 9, 10, 15]).map RowRun.originalRows).flatten =
        [3, 4, 5, 9, 10, 15] ∧
    (∀ r ∈ groupRuns [3, 4, 5, 9, 10, 15],
        0 < r.count ∧ r.originalRows = List.range' r.start r.count) ∧
    List.Chain' (fun r1 r2 => r1.start + r1.count < r2.start)
        (groupRuns [3, 4, 5, 9, 10, 15]) ∧
    (∀ fetch, retrieveResults fetch [3, 4, 5, 9, 10, 15] =
        [3, 4, 5, 9, 10, 15].map fun m => (m, fetch m)) ∧
    (groupRuns [3, 4, 5, 9, 10, 15]).map (fun r => (r.start, r.count)) =
      [(3, 3), (9, 2), (15, 1)] :=
  C4_contiguous_run_grouping [3, 4, 5, 9, 10, 15] (by simp [List.chain'_cons])

end Gass
